import Mathlib

/-
Verification of the NeighborCacheHelper design (ns-3 neighbor-cache pre-population
helper, src/internet/helper/neighbor-cache-helper.h).

The repository ships only the header (declarations); the implementation is
modelled from the design document, faithfully following its data model and the
contracts of the Pairwise Populator, the Scope Walkers, the Generation Tracker
and the Dynamic Maintenance Subscriber.
-/

namespace NS3

/-- Protocol family of an interface: IPv4 (ARP cache) or IPv6 (NDISC cache). -/
inductive Family where
  | v4 : Family
  | v6 : Family
deriving DecidableEq

/-- Modelled from the spec: a protocol address, abstracted to an identifier plus
the classification bits the Populator consults (loopback, unspecified,
multicast/broadcast, and for IPv6 whether its scope is compatible with direct
neighbor reachability, i.e. global or link-local unicast). -/
structure Address where
  bits : Nat
  loopback : Bool
  unspecified : Bool
  multicast : Bool
  scopeOk : Bool
deriving DecidableEq

/-- Modelled from the spec: an Address Cache Entry is a triple
(peer protocol address, peer link address, generated-flag). -/
structure Entry where
  addr : Address
  link : Nat
  generated : Bool
deriving DecidableEq

/-- A per-interface resolution cache: an ordered list of entries. -/
abbrev Cache := List Entry

/-- A cache is identified by the owning device id and the protocol family. -/
abbrev CacheKey := Nat × Family

/-- The global cache state: one cache per (device, family) interface. -/
abbrev CacheState := CacheKey → Cache

/-- Modelled from the spec: a Device is identified by a link-layer address, is
attached to exactly one Channel, and owns zero or one IPv4 Interface and zero
or one IPv6 Interface, each holding an ordered list of configured Addresses. -/
structure Device where
  devId : Nat
  linkAddr : Nat
  chan : Nat
  v4addrs : Option (List Address)
  v6addrs : Option (List Address)
deriving DecidableEq

/-- Modelled from the spec: the Topology Accessor view — the channels known to
the topology and the devices (each attached to one channel). -/
structure Topology where
  chans : List Nat
  devs : List Device

/-- The configured addresses of the requested-family interface of a device,
or none if the device lacks that interface. -/
def famAddrs (fam : Family) (d : Device) : Option (List Address) :=
  match fam with
  | .v4 => d.v4addrs
  | .v6 => d.v6addrs

/-- Modelled from the spec: eligibility of an address as a resolution target —
skip loopback, unspecified and multicast/broadcast; for IPv6 additionally
require neighbor-reachable scope (global or link-local unicast). -/
def eligible (fam : Family) (a : Address) : Bool :=
  match fam with
  | .v4 => !a.loopback && !a.unspecified && !a.multicast
  | .v6 => !a.loopback && !a.unspecified && !a.multicast && a.scopeOk

/-- The eligible configured addresses of the fam-interface of a device. -/
def eligibleAddrs (fam : Family) (d : Device) : List Address :=
  ((famAddrs fam d).getD []).filter (eligible fam)

/-- Modelled from the spec: AddEntry — insert an auto-generated entry into a
cache. At most one entry per peer address; an existing manually configured
entry (generated-flag false) is never overwritten; an existing auto-generated
entry is refreshed in place; a fresh address is appended. -/
def AddEntry : Cache → Address → Nat → Cache
  | [], a, l => [⟨a, l, true⟩]
  | e :: rest, a, l =>
    if e.addr = a then
      (if e.generated then Entry.mk a l true :: rest else e :: rest)
    else
      e :: AddEntry rest a l

/-- Lookup of the first entry for a peer address in a cache. -/
def lookupA : Cache → Address → Option Entry
  | [], _ => none
  | e :: rest, a => if e.addr = a then some e else lookupA rest a

/-- Pointwise update of the cache state at one key. -/
def updState (st : CacheState) (k : CacheKey) (c : Cache) : CacheState :=
  fun q => if q = k then c else st q

/-- One cache-write operation produced by a Scope Walker: insert, into the
cache identified by key, an entry for addr resolving to link. -/
structure Op where
  key : CacheKey
  addr : Address
  link : Nat
deriving DecidableEq

/-- Apply one write operation to the cache state. -/
def applyOp (st : CacheState) (o : Op) : CacheState :=
  updState st o.key (AddEntry (st o.key) o.addr o.link)

/-- Apply a list of write operations in order. -/
def applyOps (st : CacheState) (L : List Op) : CacheState :=
  L.foldl applyOp st

/-- All ordered pairs (x, y) with x occurring strictly before y in the list:
the unordered pairs of distinct positions. -/
def pairsOf : List Device → List (Device × Device)
  | [] => []
  | d :: rest => rest.map (fun e => (d, e)) ++ pairsOf rest

/-- The devices attached to a given channel. -/
def devicesOn (t : Topology) (c : Nat) : List Device :=
  t.devs.filter (fun d => d.chan == c)

/-- Modelled from the spec: one direction of the Pairwise Populator — for each
eligible configured address of src, an operation writing it into target's
cache mapped to src's link address, generated-flag true. -/
def opsOneSide (fam : Family) (target src : Device) : List Op :=
  (eligibleAddrs fam src).map (fun a => ⟨(target.devId, fam), a, src.linkAddr⟩)

/-- Modelled from the spec: the Pairwise Populator for one device pair — skip
if the pair is a self-pair or either side lacks the fam interface; otherwise
write both directions. -/
def opsPair (fam : Family) (A B : Device) : List Op :=
  if A.devId = B.devId then []
  else if (famAddrs fam A).isSome && (famAddrs fam B).isSome then
    opsOneSide fam A B ++ opsOneSide fam B A
  else []

/-- Modelled from the spec: the By-Channel Scope Walker for one family — every
unordered pair of distinct devices attached to the channel. -/
def opsChannelFam (fam : Family) (t : Topology) (c : Nat) : List Op :=
  (pairsOf (devicesOn t c)).flatMap (fun p => opsPair fam p.1 p.2)

/-- By-Channel walker: IPv4 pass then IPv6 pass. -/
def opsChannel (t : Topology) (c : Nat) : List Op :=
  opsChannelFam .v4 t c ++ opsChannelFam .v6 t c

/-- Modelled from the spec: the Global walker — iterate every channel known to
the topology and apply the By-Channel procedure. -/
def opsGlobal (t : Topology) : List Op :=
  t.chans.flatMap (fun c => opsChannel t c)

/-- The pairs of distinct listed devices that share a channel. -/
def sameChanPairs (ds : List Device) : List (Device × Device) :=
  (pairsOf ds).filter (fun p => p.1.chan == p.2.chan)

/-- Modelled from the spec: the By-Device-Set walker — devices not sharing a
channel are never paired; within a shared channel both families are run. -/
def opsDeviceSet (ds : List Device) : List Op :=
  (sameChanPairs ds).flatMap (fun p => opsPair .v4 p.1 p.2 ++ opsPair .v6 p.1 p.2)

/-- Modelled from the spec: the By-Interface-Set walker for one family —
pairs of distinct listed interfaces whose owning devices share a channel. -/
def opsIfaceSet (fam : Family) (ds : List Device) : List Op :=
  (sameChanPairs ds).flatMap (fun p => opsPair fam p.1 p.2)

/-- The peer devices of d: attached to d's channel, with a different id. -/
def peersOf (t : Topology) (d : Device) : List Device :=
  t.devs.filter (fun p => p.chan == d.chan && p.devId != d.devId)

/-- Modelled from the spec: on an address-added event for device d, re-run the
Pairwise Populator between d and every peer interface on d's channel of the
same family. -/
def opsAdded (fam : Family) (t : Topology) (d : Device) : List Op :=
  (peersOf t d).flatMap (fun p => opsPair fam d p)

/-- Populate by Channel (const entry point): apply the By-Channel walker. -/
def PopulateNeighborCacheChannel (t : Topology) (c : Nat) (st : CacheState) : CacheState :=
  applyOps st (opsChannel t c)

/-- Populate by Device set (const entry point). -/
def PopulateNeighborCacheDevices (ds : List Device) (st : CacheState) : CacheState :=
  applyOps st (opsDeviceSet ds)

/-- Populate by IPv4 interface set (const entry point). -/
def PopulateNeighborCacheIpv4 (ds : List Device) (st : CacheState) : CacheState :=
  applyOps st (opsIfaceSet .v4 ds)

/-- Populate by IPv6 interface set (const entry point). -/
def PopulateNeighborCacheIpv6 (ds : List Device) (st : CacheState) : CacheState :=
  applyOps st (opsIfaceSet .v6 ds)

/-- The global-walker cache effect (the parameterless PopulateNeighborCache). -/
def PopulateNeighborCacheGlobalState (t : Topology) (st : CacheState) : CacheState :=
  applyOps st (opsGlobal t)

/-- Modelled from the spec: the Pairwise Populator for two IPv4 interfaces
(PopulateNeighborEntriesIpv4), both directions. -/
def PopulateNeighborEntriesIpv4 (i j : Device) (st : CacheState) : CacheState :=
  applyOps st (opsPair .v4 i j)

/-- Modelled from the spec: the Pairwise Populator for two IPv6 interfaces
(PopulateNeighborEntriesIpv6), both directions. -/
def PopulateNeighborEntriesIpv6 (i j : Device) (st : CacheState) : CacheState :=
  applyOps st (opsPair .v6 i j)

/-- Modelled from the spec: FlushAutoGenerated removes, from every cache,
exactly the entries carrying the generated tag. -/
def FlushAutoGenerated (st : CacheState) : CacheState :=
  fun k => (st k).filter (fun e => !e.generated)

/-- Modelled from the spec: on an address-removed event for device d, remove
from every same-family peer cache on d's channel exactly the generated entries
for the removed address. -/
def UpdateCacheByAddressRemoved (fam : Family) (t : Topology) (d : Device) (a : Address)
    (st : CacheState) : CacheState :=
  fun k =>
    if k.2 = fam ∧ ∃ p ∈ peersOf t d, p.devId = k.1 ∧ (famAddrs fam p).isSome = true then
      (st k).filter (fun e => !(decide (e.addr = a) && e.generated))
    else st k

/-- Modelled from the spec: on an address-added event for device d, re-run the
Pairwise Populator between d and its same-family channel peers. -/
def UpdateCacheByAddressAdded (fam : Family) (t : Topology) (d : Device)
    (st : CacheState) : CacheState :=
  applyOps st (opsAdded fam t d)

/-- The helper's process-lifetime flags, as declared in the header:
m_globalNeighborCache and m_dynamicNeighborCache, both initialised false. -/
structure NeighborCacheHelper where
  m_globalNeighborCache : Bool
  m_dynamicNeighborCache : Bool
deriving DecidableEq

/-- The constructed helper: both flags false. -/
def NeighborCacheHelper.init : NeighborCacheHelper :=
  ⟨false, false⟩

/-- SetDynamicNeighborCache: the Disabled/Enabled state transition. -/
def SetDynamicNeighborCache (b : Bool) (h : NeighborCacheHelper) : NeighborCacheHelper :=
  { h with m_dynamicNeighborCache := b }

/-- The operations a caller or the event stream can apply to the helper:
the five population entry points, the flush, the dynamic-mode switch, and the
address-change events handled by the Dynamic Maintenance Subscriber. -/
inductive Cmd where
  | popGlobal : Cmd
  | popChannel (c : Nat) : Cmd
  | popDevices (ds : List Device) : Cmd
  | popIfacesV4 (ds : List Device) : Cmd
  | popIfacesV6 (ds : List Device) : Cmd
  | flush : Cmd
  | setDynamic (b : Bool) : Cmd
  | addrRemoved (fam : Family) (d : Device) (a : Address) : Cmd
  | addrAdded (fam : Family) (d : Device) : Cmd

/-- Modelled from the spec: one step of the helper. Population entry points
and the flush are const (helper flags unchanged) except the global walker,
which sets m_globalNeighborCache; address-change events mutate caches only in
the Enabled state. -/
def exec (t : Topology) : Cmd → NeighborCacheHelper × CacheState → NeighborCacheHelper × CacheState
  | .popGlobal, (h, st) =>
      ({ h with m_globalNeighborCache := true }, PopulateNeighborCacheGlobalState t st)
  | .popChannel c, (h, st) => (h, PopulateNeighborCacheChannel t c st)
  | .popDevices ds, (h, st) => (h, PopulateNeighborCacheDevices ds st)
  | .popIfacesV4 ds, (h, st) => (h, PopulateNeighborCacheIpv4 ds st)
  | .popIfacesV6 ds, (h, st) => (h, PopulateNeighborCacheIpv6 ds st)
  | .flush, (h, st) => (h, FlushAutoGenerated st)
  | .setDynamic b, (h, st) => (SetDynamicNeighborCache b h, st)
  | .addrRemoved fam d a, (h, st) =>
      if h.m_dynamicNeighborCache then (h, UpdateCacheByAddressRemoved fam t d a st)
      else (h, st)
  | .addrAdded fam d, (h, st) =>
      if h.m_dynamicNeighborCache then (h, UpdateCacheByAddressAdded fam t d st)
      else (h, st)

/-- Run a sequence of operations. -/
def run (t : Topology) (cmds : List Cmd) (s : NeighborCacheHelper × CacheState) :
    NeighborCacheHelper × CacheState :=
  cmds.foldl (fun s c => exec t c s) s

/-- The all-empty cache state. -/
def emptyState : CacheState := fun _ => []

/-- Sequential application of (address, link) write operations to one cache. -/
def cApply : Cache → List (Address × Nat) → Cache
  | c, [] => c
  | c, p :: rest => cApply (AddEntry c p.1 p.2) rest

/-- The per-key projection of a keyed operation list. -/
def keyOps (k : CacheKey) (L : List Op) : List (Address × Nat) :=
  L.filterMap (fun o => if o.key = k then some (o.addr, o.link) else none)

/-- Every entry in every cache has an address that is neither loopback nor
unspecified nor multicast/broadcast. -/
def GoodState (st : CacheState) : Prop :=
  ∀ k : CacheKey, ∀ e ∈ st k, e.addr.loopback = false ∧ e.addr.unspecified = false ∧
    e.addr.multicast = false

/-- Link-address discipline: no cache of a device holds an entry resolving to
that device's own link address. -/
def GoodLinks (t : Topology) (st : CacheState) : Prop :=
  ∀ d ∈ t.devs, ∀ fam : Family, ∀ e ∈ st (d.devId, fam), e.link ≠ d.linkAddr

/-- No interface's cache maps one of its own configured addresses to its own
device's link address. -/
def NoSelfEntry (t : Topology) (st : CacheState) : Prop :=
  ∀ d ∈ t.devs, ∀ fam : Family, ∀ e ∈ st (d.devId, fam),
    ¬(e.addr ∈ (famAddrs fam d).getD [] ∧ e.link = d.linkAddr)

/-- Well-formed topology: distinct devices carry distinct link-layer
addresses. -/
def WFLinks (t : Topology) : Prop :=
  ∀ d1 ∈ t.devs, ∀ d2 ∈ t.devs, d1.devId ≠ d2.devId → d1.linkAddr ≠ d2.linkAddr

/-- Scoping of a command relative to the topology: the device arguments it
mentions are devices of the topology. -/
def CmdScoped (t : Topology) : Cmd → Prop
  | .popDevices ds => ∀ x ∈ ds, x ∈ t.devs
  | .popIfacesV4 ds => ∀ x ∈ ds, x ∈ t.devs
  | .popIfacesV6 ds => ∀ x ∈ ds, x ∈ t.devs
  | .addrAdded _ d => d ∈ t.devs
  | _ => True

/-- The population entry points among the commands. -/
def IsPopulate : Cmd → Prop
  | .popGlobal => True
  | .popChannel _ => True
  | .popDevices _ => True
  | .popIfacesV4 _ => True
  | .popIfacesV6 _ => True
  | _ => False

/-- The address-removed update removed, from every same-family peer cache on
d's channel, exactly the generated entries for the removed address. -/
def RemovalExact (fam : Family) (t : Topology) (d : Device) (a : Address)
    (st st' : CacheState) : Prop :=
  ∀ p ∈ peersOf t d, (famAddrs fam p).isSome = true →
    ∀ e : Entry, e ∈ st' (p.devId, fam) ↔
      (e ∈ st (p.devId, fam) ∧ ¬(e.addr = a ∧ e.generated = true))

/-- Caches other than the same-family peer caches of d are untouched. -/
def FrameOutsidePeers (fam : Family) (t : Topology) (d : Device)
    (st st' : CacheState) : Prop :=
  ∀ k : CacheKey, (k.2 ≠ fam ∨ ∀ p ∈ peersOf t d, p.devId ≠ k.1) → st' k = st k

/-- The address-added update touches only the same-family caches of d and of
its channel peers. -/
def FrameAdded (fam : Family) (t : Topology) (d : Device)
    (st st' : CacheState) : Prop :=
  ∀ k : CacheKey, (k.2 ≠ fam ∨ (k.1 ≠ d.devId ∧ ∀ p ∈ peersOf t d, p.devId ≠ k.1)) →
    st' k = st k

/-- A concrete unicast address used in the witnesses. -/
def wAddr1 : Address := ⟨1, false, false, false, true⟩

/-- A second concrete unicast address used in the witnesses. -/
def wAddr2 : Address := ⟨2, false, false, false, true⟩

/-- A concrete device used in the witnesses. -/
def wDevA : Device := ⟨0, 10, 0, some [wAddr1], none⟩

/-- A second concrete device used in the witnesses. -/
def wDevB : Device := ⟨1, 11, 0, some [wAddr2], none⟩

/-- A concrete one-channel topology used in the witnesses. -/
def wTop : Topology := ⟨[0], [wDevA, wDevB]⟩

/-! Basic algebra of lookupA and AddEntry on one cache. -/

theorem lookupA_mem {a : Address} {e : Entry} :
    ∀ {c : Cache}, lookupA c a = some e → e ∈ c := by
  intro c
  induction c with
  | nil => intro h; simp [lookupA] at h
  | cons x xs ih =>
    intro h
    rw [lookupA] at h
    by_cases hx : x.addr = a
    · rw [if_pos hx] at h
      cases Option.some.inj h
      exact List.mem_cons_self _ _
    · rw [if_neg hx] at h
      exact List.mem_cons_of_mem _ (ih h)

theorem lookupA_addr {a : Address} :
    ∀ {c : Cache} {e : Entry}, lookupA c a = some e → e.addr = a := by
  intro c
  induction c with
  | nil => intro e h; simp [lookupA] at h
  | cons x xs ih =>
    intro e h
    rw [lookupA] at h
    by_cases hx : x.addr = a
    · rw [if_pos hx] at h; cases Option.some.inj h; exact hx
    · rw [if_neg hx] at h; exact ih h

theorem lookupA_AddEntry_other {a b : Address} (hne : b ≠ a) (m : Nat) :
    ∀ c : Cache, lookupA (AddEntry c b m) a = lookupA c a := by
  intro c
  induction c with
  | nil => simp [AddEntry, lookupA, hne]
  | cons x xs ih =>
    by_cases hxb : x.addr = b
    · by_cases hxg : x.generated = true
      · rw [AddEntry, if_pos hxb, if_pos hxg]
        have hxa : ¬ x.addr = a := fun h => hne (hxb ▸ h)
        simp [lookupA, hne, hxa]
      · rw [AddEntry, if_pos hxb, if_neg hxg]
    · rw [AddEntry, if_neg hxb]
      by_cases hxa : x.addr = a
      · simp [lookupA, hxa]
      · simp [lookupA, hxa, ih]

theorem lookupA_AddEntry_none {a : Address} (l : Nat) :
    ∀ {c : Cache}, lookupA c a = none → lookupA (AddEntry c a l) a = some ⟨a, l, true⟩ := by
  intro c
  induction c with
  | nil => intro h; simp [AddEntry, lookupA]
  | cons x xs ih =>
    intro h
    rw [lookupA] at h
    by_cases hx : x.addr = a
    · rw [if_pos hx] at h; exact absurd h (by simp)
    · rw [if_neg hx] at h
      simp [AddEntry, hx, lookupA, ih h]

theorem lookupA_AddEntry_gen {a : Address} {e : Entry} (l : Nat) :
    ∀ {c : Cache}, lookupA c a = some e → e.generated = true →
      lookupA (AddEntry c a l) a = some ⟨a, l, true⟩ := by
  intro c
  induction c with
  | nil => intro h _; simp [lookupA] at h
  | cons x xs ih =>
    intro h hg
    rw [lookupA] at h
    by_cases hx : x.addr = a
    · rw [if_pos hx] at h
      cases Option.some.inj h
      simp [AddEntry, hx, hg, lookupA]
    · rw [if_neg hx] at h
      simp [AddEntry, hx, lookupA, ih h hg]

theorem AddEntry_manual {a : Address} {e : Entry} (l : Nat) :
    ∀ {c : Cache}, lookupA c a = some e → e.generated = false → AddEntry c a l = c := by
  intro c
  induction c with
  | nil => intro h _; simp [lookupA] at h
  | cons x xs ih =>
    intro h hg
    rw [lookupA] at h
    by_cases hx : x.addr = a
    · rw [if_pos hx] at h
      cases Option.some.inj h
      simp [AddEntry, hx, hg]
    · rw [if_neg hx] at h
      simp [AddEntry, hx, ih h hg]

theorem AddEntry_id {a : Address} {l : Nat} :
    ∀ {c : Cache}, lookupA c a = some ⟨a, l, true⟩ → AddEntry c a l = c := by
  intro c
  induction c with
  | nil => intro h; simp [lookupA] at h
  | cons x xs ih =>
    intro h
    rw [lookupA] at h
    by_cases hx : x.addr = a
    · rw [if_pos hx] at h
      cases Option.some.inj h
      simp [AddEntry]
    · rw [if_neg hx] at h
      simp [AddEntry, hx, ih h]

theorem isSome_lookupA_AddEntry_self (a : Address) (l : Nat) :
    ∀ c : Cache, (lookupA (AddEntry c a l) a).isSome = true := by
  intro c
  induction c with
  | nil => simp [AddEntry, lookupA]
  | cons x xs ih =>
    by_cases hx : x.addr = a
    · by_cases hxg : x.generated = true
      · simp [AddEntry, hx, hxg, lookupA]
      · simp [AddEntry, hx, hxg, lookupA]
    · simp [AddEntry, hx, lookupA, ih]

theorem isSome_lookupA_AddEntry {a : Address} {c : Cache}
    (hs : (lookupA c a).isSome = true) (b : Address) (m : Nat) :
    (lookupA (AddEntry c b m) a).isSome = true := by
  by_cases hba : b = a
  · cases hba; exact isSome_lookupA_AddEntry_self a m c
  · rw [lookupA_AddEntry_other hba m c]; exact hs

theorem AddEntry_absorb (a : Address) (l l' : Nat) :
    ∀ c : Cache, AddEntry (AddEntry c a l) a l' = AddEntry c a l' := by
  intro c
  induction c with
  | nil => simp [AddEntry]
  | cons x xs ih =>
    by_cases hx : x.addr = a
    · by_cases hxg : x.generated = true
      · simp [AddEntry, hx, hxg]
      · simp [AddEntry, hx, hxg]
    · simp [AddEntry, hx, ih]

theorem AddEntry_comm {a b : Address} (hne : a ≠ b) (l m : Nat) :
    ∀ c : Cache, (lookupA c a).isSome = true →
      AddEntry (AddEntry c a l) b m = AddEntry (AddEntry c b m) a l := by
  intro c
  induction c with
  | nil => intro hs; simp [lookupA] at hs
  | cons x xs ih =>
    intro hs
    have hba : ¬ b = a := Ne.symm hne
    by_cases hxa : x.addr = a
    · have hxb : ¬ x.addr = b := fun h => hne (hxa.symm.trans h)
      by_cases hxg : x.generated = true
      · simp [AddEntry, hxa, hxb, hxg, hne, hba]
      · simp [AddEntry, hxa, hxb, hxg, hne, hba]
    · rw [lookupA, if_neg hxa] at hs
      by_cases hxb : x.addr = b
      · by_cases hxg : x.generated = true
        · simp [AddEntry, hxa, hxb, hxg, hne, hba]
        · simp [AddEntry, hxa, hxb, hxg, hne, hba]
      · simp [AddEntry, hxa, hxb, ih hs]

theorem mem_AddEntry {e : Entry} {a : Address} {l : Nat} :
    ∀ {c : Cache}, e ∈ AddEntry c a l → e ∈ c ∨ e = ⟨a, l, true⟩ := by
  intro c
  induction c with
  | nil => intro h; simp [AddEntry] at h; exact Or.inr h
  | cons x xs ih =>
    intro h
    by_cases hx : x.addr = a
    · by_cases hxg : x.generated = true
      · rw [AddEntry, if_pos hx, if_pos hxg] at h
        rcases List.mem_cons.mp h with h1 | h2
        · exact Or.inr h1
        · exact Or.inl (List.mem_cons_of_mem _ h2)
      · rw [AddEntry, if_pos hx, if_neg hxg] at h
        exact Or.inl h
    · rw [AddEntry, if_neg hx] at h
      rcases List.mem_cons.mp h with h1 | h2
      · exact Or.inl (h1 ▸ List.mem_cons_self x xs)
      · rcases ih h2 with h3 | h4
        · exact Or.inl (List.mem_cons_of_mem _ h3)
        · exact Or.inr h4

/-! Reduction of the keyed operation stream to one cache at a time. -/

theorem cApply_lookupA_other {a : Address} :
    ∀ (M : List (Address × Nat)) (c : Cache), (∀ p ∈ M, p.1 ≠ a) →
      lookupA (cApply c M) a = lookupA c a := by
  intro M
  induction M with
  | nil => intro c _; rfl
  | cons q M ih =>
    intro c hall
    show lookupA (cApply (AddEntry c q.1 q.2) M) a = _
    rw [ih (AddEntry c q.1 q.2) (fun p hp => hall p (List.mem_cons_of_mem _ hp))]
    exact lookupA_AddEntry_other (hall q (List.mem_cons_self _ _)) q.2 c

theorem isSome_cApply {a : Address} :
    ∀ (M : List (Address × Nat)) (c : Cache), (lookupA c a).isSome = true →
      (lookupA (cApply c M) a).isSome = true := by
  intro M
  induction M with
  | nil => intro c hs; exact hs
  | cons q M ih =>
    intro c hs
    exact ih (AddEntry c q.1 q.2) (isSome_lookupA_AddEntry hs q.1 q.2)

theorem cApply_absorb_later {a : Address} :
    ∀ (M : List (Address × Nat)) (c : Cache) (l : Nat), (lookupA c a).isSome = true →
      (∃ p ∈ M, p.1 = a) → cApply (AddEntry c a l) M = cApply c M := by
  intro M
  induction M with
  | nil => intro c l _ hex; simp at hex
  | cons q M ih =>
    intro c l hs hex
    show cApply (AddEntry (AddEntry c a l) q.1 q.2) M = cApply (AddEntry c q.1 q.2) M
    by_cases hq : q.1 = a
    · rw [hq, AddEntry_absorb]
    · rw [AddEntry_comm (fun h => hq h.symm) l q.2 c hs]
      apply ih (AddEntry c q.1 q.2) l (isSome_lookupA_AddEntry hs q.1 q.2)
      rcases hex with ⟨p, hp, hpa⟩
      rcases List.mem_cons.mp hp with h1 | h2
      · exact absurd (h1 ▸ hpa) hq
      · exact ⟨p, h2, hpa⟩

theorem cApply_idem : ∀ (M : List (Address × Nat)) (c : Cache),
    cApply (cApply c M) M = cApply c M := by
  intro M
  induction M with
  | nil => intro c; rfl
  | cons q M ih =>
    intro c
    show cApply (AddEntry (cApply (AddEntry c q.1 q.2) M) q.1 q.2) M
        = cApply (AddEntry c q.1 q.2) M
    set c1 := AddEntry c q.1 q.2 with hc1
    by_cases hex : ∃ p ∈ M, p.1 = q.1
    · have hsome : (lookupA (cApply c1 M) q.1).isSome = true :=
        isSome_cApply M c1 (by rw [hc1]; exact isSome_lookupA_AddEntry_self q.1 q.2 c)
      rw [cApply_absorb_later M (cApply c1 M) q.2 hsome hex, ih c1]
    · have hall : ∀ p ∈ M, p.1 ≠ q.1 := by
        intro p hp hpa
        exact hex ⟨p, hp, hpa⟩
      have hl : lookupA (cApply c1 M) q.1 = lookupA c1 q.1 :=
        cApply_lookupA_other M c1 hall
      have habs : AddEntry (cApply c1 M) q.1 q.2 = cApply c1 M := by
        rcases ho : lookupA c q.1 with _ | e
        · exact AddEntry_id (by rw [hl, hc1, lookupA_AddEntry_none q.2 ho])
        · by_cases hg : e.generated = true
          · exact AddEntry_id (by rw [hl, hc1, lookupA_AddEntry_gen q.2 ho hg])
          · have hg' : e.generated = false := by
              cases hgen : e.generated
              · rfl
              · exact absurd hgen hg
            have hc1c : c1 = c := by rw [hc1]; exact AddEntry_manual q.2 ho hg'
            exact AddEntry_manual q.2 (by rw [hl, hc1c]; exact ho) hg'
      rw [habs, ih c1]

theorem applyOp_at (st : CacheState) (o : Op) (k : CacheKey) :
    applyOp st o k = if o.key = k then AddEntry (st k) o.addr o.link else st k := by
  by_cases hk : o.key = k
  · simp [applyOp, updState, hk]
  · have hk' : ¬ k = o.key := fun h => hk h.symm
    simp [applyOp, updState, hk, hk']

theorem applyOps_proj : ∀ (L : List Op) (st : CacheState) (k : CacheKey),
    applyOps st L k = cApply (st k) (keyOps k L) := by
  intro L
  induction L with
  | nil => intro st k; rfl
  | cons o L ih =>
    intro st k
    show applyOps (applyOp st o) L k = _
    rw [ih]
    by_cases hk : o.key = k
    · have h1 : keyOps k (o :: L) = (o.addr, o.link) :: keyOps k L := by
        simp [keyOps, hk]
      rw [h1, applyOp_at, if_pos hk]
      rfl
    · have h1 : keyOps k (o :: L) = keyOps k L := by simp [keyOps, hk]
      rw [h1, applyOp_at, if_neg hk]

theorem applyOps_idem (L : List Op) (st : CacheState) :
    applyOps (applyOps st L) L = applyOps st L := by
  funext k
  rw [applyOps_proj L (applyOps st L) k, applyOps_proj L st k, cApply_idem]

theorem applyOps_frame (L : List Op) (st : CacheState) (k : CacheKey)
    (hall : ∀ o ∈ L, o.key ≠ k) : applyOps st L k = st k := by
  rw [applyOps_proj]
  have hnil : keyOps k L = [] := by
    apply List.filterMap_eq_nil_iff.mpr
    intro o ho
    simp [hall o ho]
  rw [hnil, cApply]

theorem mem_applyOps {e : Entry} :
    ∀ (L : List Op) (st : CacheState) (k : CacheKey), e ∈ applyOps st L k →
      e ∈ st k ∨ ∃ o ∈ L, o.key = k ∧ e.addr = o.addr ∧ e.link = o.link ∧
        e.generated = true := by
  intro L
  induction L with
  | nil => intro st k h; exact Or.inl h
  | cons o L ih =>
    intro st k h
    rcases ih (applyOp st o) k h with h1 | ⟨o', ho', rest⟩
    · rw [applyOp_at] at h1
      by_cases hk : o.key = k
      · rw [if_pos hk] at h1
        rcases mem_AddEntry h1 with h2 | h3
        · exact Or.inl h2
        · refine Or.inr ⟨o, List.mem_cons_self _ _, hk, ?_⟩
          cases h3
          exact ⟨rfl, rfl, rfl⟩
      · rw [if_neg hk] at h1
        exact Or.inl h1
    · exact Or.inr ⟨o', List.mem_cons_of_mem _ ho', rest⟩

theorem cApply_final_lookup {a : Address} {l0 : Nat} :
    ∀ (M : List (Address × Nat)) (c : Cache),
      (∀ p ∈ M, p.1 = a → p.2 = l0) →
      ((a, l0) ∈ M ∨ lookupA c a = some ⟨a, l0, true⟩) →
      (lookupA c a = none ∨ lookupA c a = some ⟨a, l0, true⟩) →
      lookupA (cApply c M) a = some ⟨a, l0, true⟩ := by
  intro M
  induction M with
  | nil =>
    intro c _ hin _
    rcases hin with h | h
    · simp at h
    · exact h
  | cons q M ih =>
    intro c hall hin hcl
    show lookupA (cApply (AddEntry c q.1 q.2) M) a = _
    by_cases hq : q.1 = a
    · have hq2 : q.2 = l0 := hall q (List.mem_cons_self _ _) hq
      have hl : lookupA (AddEntry c q.1 q.2) a = some ⟨a, l0, true⟩ := by
        rw [hq, hq2]
        rcases hcl with h | h
        · exact lookupA_AddEntry_none l0 h
        · exact lookupA_AddEntry_gen l0 h rfl
      exact ih (AddEntry c q.1 q.2) (fun p hp => hall p (List.mem_cons_of_mem _ hp))
        (Or.inr hl) (Or.inr hl)
    · have hl : lookupA (AddEntry c q.1 q.2) a = lookupA c a :=
        lookupA_AddEntry_other hq q.2 c
      apply ih (AddEntry c q.1 q.2) (fun p hp => hall p (List.mem_cons_of_mem _ hp))
      · rcases hin with h | h
        · rcases List.mem_cons.mp h with h1 | h2
          · exact absurd (congrArg Prod.fst h1).symm hq
          · exact Or.inl h2
        · exact Or.inr (hl.trans h)
      · rcases hcl with h | h
        · exact Or.inl (hl.trans h)
        · exact Or.inr (hl.trans h)

theorem mem_applyOps_write {st : CacheState} {L : List Op} {kA : CacheKey} {a : Address}
    {l0 : Nat} (hex : Op.mk kA a l0 ∈ L)
    (hall : ∀ o ∈ L, o.key = kA → o.addr = a → o.link = l0)
    (hclean : lookupA (st kA) a = none) :
    Entry.mk a l0 true ∈ applyOps st L kA := by
  rw [applyOps_proj]
  apply lookupA_mem (a := a)
  apply cApply_final_lookup (keyOps kA L) (st kA)
  · intro p hp hpa
    rcases List.mem_filterMap.mp hp with ⟨o, ho, hoe⟩
    by_cases hk : o.key = kA
    · rw [if_pos hk] at hoe
      cases Option.some.inj hoe
      exact hall o ho hk hpa
    · rw [if_neg hk] at hoe
      exact absurd hoe (by simp)
  · left
    apply List.mem_filterMap.mpr
    exact ⟨⟨kA, a, l0⟩, hex, by simp⟩
  · exact Or.inl hclean

/-! Structural facts about the Scope Walkers. -/

theorem pairsOf_mem_sub :
    ∀ {l : List Device} {p : Device × Device}, p ∈ pairsOf l → p.1 ∈ l ∧ p.2 ∈ l := by
  intro l
  induction l with
  | nil => intro p h; simp [pairsOf] at h
  | cons d rest ih =>
    intro p h
    rw [pairsOf] at h
    rcases List.mem_append.mp h with h1 | h2
    · rcases List.mem_map.mp h1 with ⟨e, he, hpe⟩
      cases hpe
      exact ⟨List.mem_cons_self _ _, List.mem_cons_of_mem _ he⟩
    · rcases ih h2 with ⟨ha, hb⟩
      exact ⟨List.mem_cons_of_mem _ ha, List.mem_cons_of_mem _ hb⟩

theorem pairsOf_mem_or :
    ∀ {l : List Device} {A B : Device}, A ∈ l → B ∈ l → A ≠ B →
      (A, B) ∈ pairsOf l ∨ (B, A) ∈ pairsOf l := by
  intro l
  induction l with
  | nil => intro A B hA _ _; simp at hA
  | cons d rest ih =>
    intro A B hA hB hne
    rcases List.mem_cons.mp hA with h1 | h2
    · subst h1
      have hBr : B ∈ rest := by
        rcases List.mem_cons.mp hB with hb | hb
        · exact absurd hb.symm hne
        · exact hb
      left
      rw [pairsOf]
      exact List.mem_append_left _ (List.mem_map.mpr ⟨B, hBr, rfl⟩)
    · rcases List.mem_cons.mp hB with hb1 | hb2
      · subst hb1
        right
        rw [pairsOf]
        exact List.mem_append_left _ (List.mem_map.mpr ⟨A, h2, rfl⟩)
      · rcases ih h2 hb2 hne with h | h
        · left; rw [pairsOf]; exact List.mem_append_right _ h
        · right; rw [pairsOf]; exact List.mem_append_right _ h

theorem eligibleAddrs_eligible {fam : Family} {d : Device} {a : Address}
    (h : a ∈ eligibleAddrs fam d) : eligible fam a = true :=
  (List.mem_filter.mp h).2

theorem opsPair_sound {fam : Family} {A B : Device} {o : Op} (h : o ∈ opsPair fam A B) :
    o.key.2 = fam ∧ A.devId ≠ B.devId ∧
      ((o.key.1 = A.devId ∧ o.link = B.linkAddr ∧ o.addr ∈ eligibleAddrs fam B) ∨
       (o.key.1 = B.devId ∧ o.link = A.linkAddr ∧ o.addr ∈ eligibleAddrs fam A)) := by
  rw [opsPair] at h
  by_cases hid : A.devId = B.devId
  · rw [if_pos hid] at h; simp at h
  · rw [if_neg hid] at h
    by_cases hifs : ((famAddrs fam A).isSome && (famAddrs fam B).isSome) = true
    · rw [if_pos hifs] at h
      rcases List.mem_append.mp h with h1 | h1
      · rcases List.mem_map.mp h1 with ⟨a, ha, hoa⟩
        cases hoa
        exact ⟨rfl, hid, Or.inl ⟨rfl, rfl, ha⟩⟩
      · rcases List.mem_map.mp h1 with ⟨a, ha, hoa⟩
        cases hoa
        exact ⟨rfl, hid, Or.inr ⟨rfl, rfl, ha⟩⟩
    · rw [if_neg hifs] at h; simp at h

theorem mem_opsPair_both {fam : Family} {A B : Device} (hid : A.devId ≠ B.devId)
    (hA : (famAddrs fam A).isSome = true) (hB : (famAddrs fam B).isSome = true)
    {a : Address} (ha : a ∈ eligibleAddrs fam B) :
    Op.mk (A.devId, fam) a B.linkAddr ∈ opsPair fam A B ∧
      Op.mk (A.devId, fam) a B.linkAddr ∈ opsPair fam B A := by
  constructor
  · rw [opsPair, if_neg hid, if_pos (by simp [hA, hB])]
    exact List.mem_append_left _ (List.mem_map.mpr ⟨a, ha, rfl⟩)
  · have hid' : ¬ B.devId = A.devId := fun hh => hid hh.symm
    rw [opsPair, if_neg hid', if_pos (by simp [hA, hB])]
    exact List.mem_append_right _ (List.mem_map.mpr ⟨a, ha, rfl⟩)

theorem devicesOn_mem {t : Topology} {c : Nat} {d : Device} :
    d ∈ devicesOn t c ↔ d ∈ t.devs ∧ d.chan = c := by
  simp [devicesOn]

theorem peersOf_mem {t : Topology} {d p : Device} :
    p ∈ peersOf t d ↔ p ∈ t.devs ∧ p.chan = d.chan ∧ p.devId ≠ d.devId := by
  simp [peersOf, and_assoc]

theorem mem_opsChannelFam {fam : Family} {t : Topology} {c : Nat} {A B : Device}
    (hA : A ∈ devicesOn t c) (hB : B ∈ devicesOn t c) (hid : A.devId ≠ B.devId)
    (hfa : (famAddrs fam A).isSome = true) (hfb : (famAddrs fam B).isSome = true)
    {a : Address} (ha : a ∈ eligibleAddrs fam B) :
    Op.mk (A.devId, fam) a B.linkAddr ∈ opsChannelFam fam t c := by
  have hne : A ≠ B := fun hh => hid (congrArg Device.devId hh)
  rcases pairsOf_mem_or hA hB hne with hp | hp
  · exact List.mem_flatMap.mpr ⟨(A, B), hp, (mem_opsPair_both hid hfa hfb ha).1⟩
  · exact List.mem_flatMap.mpr ⟨(B, A), hp, (mem_opsPair_both hid hfa hfb ha).2⟩

theorem mem_opsChannel_of_fam {t : Topology} {c : Nat} {o : Op} {fam : Family}
    (h : o ∈ opsChannelFam fam t c) : o ∈ opsChannel t c := by
  cases fam
  · exact List.mem_append_left _ h
  · exact List.mem_append_right _ h

theorem opsChannel_sound {t : Topology} {c : Nat} {o : Op} (h : o ∈ opsChannel t c) :
    ∃ T S, T ∈ devicesOn t c ∧ S ∈ devicesOn t c ∧ S.devId ≠ T.devId ∧
      o.key.1 = T.devId ∧ o.link = S.linkAddr ∧ o.addr ∈ eligibleAddrs o.key.2 S := by
  have h2 : ∃ fam, o ∈ opsChannelFam fam t c := by
    rcases List.mem_append.mp h with h1 | h1
    exacts [⟨.v4, h1⟩, ⟨.v6, h1⟩]
  rcases h2 with ⟨fam, h3⟩
  rcases List.mem_flatMap.mp h3 with ⟨p, hp, hop⟩
  rcases pairsOf_mem_sub hp with ⟨h4, h5⟩
  rcases opsPair_sound hop with ⟨hkf, hid, hcase | hcase⟩
  · refine ⟨p.1, p.2, h4, h5, fun hh => hid hh.symm, hcase.1, hcase.2.1, ?_⟩
    rw [hkf]; exact hcase.2.2
  · refine ⟨p.2, p.1, h5, h4, hid, hcase.1, hcase.2.1, ?_⟩
    rw [hkf]; exact hcase.2.2

theorem opsGlobal_sound {t : Topology} {o : Op} (h : o ∈ opsGlobal t) :
    ∃ c, c ∈ t.chans ∧ o ∈ opsChannel t c :=
  List.mem_flatMap.mp h

theorem mem_opsGlobal_of_channel {t : Topology} {c : Nat} {o : Op} (hc : c ∈ t.chans)
    (h : o ∈ opsChannel t c) : o ∈ opsGlobal t :=
  List.mem_flatMap.mpr ⟨c, hc, h⟩

theorem sameChanPairs_mem {ds : List Device} {p : Device × Device}
    (h : p ∈ sameChanPairs ds) : p ∈ pairsOf ds ∧ p.1.chan = p.2.chan := by
  have h2 := List.mem_filter.mp h
  refine ⟨h2.1, ?_⟩
  have := h2.2
  simpa using this

theorem opsDeviceSet_sound {ds : List Device} {o : Op} (h : o ∈ opsDeviceSet ds) :
    ∃ T S, T ∈ ds ∧ S ∈ ds ∧ S.devId ≠ T.devId ∧
      o.key.1 = T.devId ∧ o.link = S.linkAddr ∧ o.addr ∈ eligibleAddrs o.key.2 S := by
  rcases List.mem_flatMap.mp h with ⟨p, hp, hop⟩
  rcases pairsOf_mem_sub (sameChanPairs_mem hp).1 with ⟨h4, h5⟩
  have h6 : ∃ fam, o ∈ opsPair fam p.1 p.2 := by
    rcases List.mem_append.mp hop with h1 | h1
    exacts [⟨.v4, h1⟩, ⟨.v6, h1⟩]
  rcases h6 with ⟨fam, hop2⟩
  rcases opsPair_sound hop2 with ⟨hkf, hid, hcase | hcase⟩
  · refine ⟨p.1, p.2, h4, h5, fun hh => hid hh.symm, hcase.1, hcase.2.1, ?_⟩
    rw [hkf]; exact hcase.2.2
  · refine ⟨p.2, p.1, h5, h4, hid, hcase.1, hcase.2.1, ?_⟩
    rw [hkf]; exact hcase.2.2

theorem opsIfaceSet_sound {fam : Family} {ds : List Device} {o : Op}
    (h : o ∈ opsIfaceSet fam ds) :
    ∃ T S, T ∈ ds ∧ S ∈ ds ∧ S.devId ≠ T.devId ∧
      o.key.1 = T.devId ∧ o.link = S.linkAddr ∧ o.addr ∈ eligibleAddrs o.key.2 S := by
  rcases List.mem_flatMap.mp h with ⟨p, hp, hop⟩
  rcases pairsOf_mem_sub (sameChanPairs_mem hp).1 with ⟨h4, h5⟩
  rcases opsPair_sound hop with ⟨hkf, hid, hcase | hcase⟩
  · refine ⟨p.1, p.2, h4, h5, fun hh => hid hh.symm, hcase.1, hcase.2.1, ?_⟩
    rw [hkf]; exact hcase.2.2
  · refine ⟨p.2, p.1, h5, h4, hid, hcase.1, hcase.2.1, ?_⟩
    rw [hkf]; exact hcase.2.2

theorem opsAdded_sound {fam : Family} {t : Topology} {d : Device} {o : Op}
    (h : o ∈ opsAdded fam t d) :
    ∃ T S, T ∈ d :: t.devs ∧ S ∈ d :: t.devs ∧ S.devId ≠ T.devId ∧
      o.key.1 = T.devId ∧ o.link = S.linkAddr ∧ o.addr ∈ eligibleAddrs o.key.2 S := by
  rcases List.mem_flatMap.mp h with ⟨p, hp, hop⟩
  have hpd : p ∈ t.devs := (peersOf_mem.mp hp).1
  rcases opsPair_sound hop with ⟨hkf, hid, hcase | hcase⟩
  · refine ⟨d, p, List.mem_cons_self _ _, List.mem_cons_of_mem _ hpd,
      fun hh => hid hh.symm, hcase.1, hcase.2.1, ?_⟩
    rw [hkf]; exact hcase.2.2
  · refine ⟨p, d, List.mem_cons_of_mem _ hpd, List.mem_cons_self _ _,
      hid, hcase.1, hcase.2.1, ?_⟩
    rw [hkf]; exact hcase.2.2

theorem opsAdded_key {fam : Family} {t : Topology} {d : Device} {o : Op}
    (h : o ∈ opsAdded fam t d) :
    o.key.2 = fam ∧ (o.key.1 = d.devId ∨ ∃ p ∈ peersOf t d, o.key.1 = p.devId) := by
  rcases List.mem_flatMap.mp h with ⟨p, hp, hop⟩
  rcases opsPair_sound hop with ⟨hkf, _, hc | hc⟩
  · exact ⟨hkf, Or.inl hc.1⟩
  · exact ⟨hkf, Or.inr ⟨p, hp, hc.1⟩⟩

/-! Preservation of cache invariants along a run. -/

theorem exec_setDynamic_eq (t : Topology) (b : Bool) (h : NeighborCacheHelper)
    (st : CacheState) :
    exec t (.setDynamic b) (h, st) = (SetDynamicNeighborCache b h, st) := rfl

theorem exec_addrRemoved_eq (t : Topology) (fam : Family) (d : Device) (a : Address)
    (h : NeighborCacheHelper) (st : CacheState) :
    exec t (.addrRemoved fam d a) (h, st) =
      if h.m_dynamicNeighborCache then (h, UpdateCacheByAddressRemoved fam t d a st)
      else (h, st) := rfl

theorem exec_addrAdded_eq (t : Topology) (fam : Family) (d : Device)
    (h : NeighborCacheHelper) (st : CacheState) :
    exec t (.addrAdded fam d) (h, st) =
      if h.m_dynamicNeighborCache then (h, UpdateCacheByAddressAdded fam t d st)
      else (h, st) := rfl

theorem eligible_good {fam : Family} {a : Address} (h : eligible fam a = true) :
    a.loopback = false ∧ a.unspecified = false ∧ a.multicast = false := by
  cases fam
  · simp [eligible] at h
    exact ⟨h.1.1, h.1.2, h.2⟩
  · simp [eligible] at h
    exact ⟨h.1.1.1, h.1.1.2, h.1.2⟩

theorem GoodState_applyOps {st : CacheState} {L : List Op}
    (hL : ∀ o ∈ L, eligible o.key.2 o.addr = true) (hst : GoodState st) :
    GoodState (applyOps st L) := by
  intro k e he
  rcases mem_applyOps L st k he with h1 | ⟨o, ho, hk, ha, hl, hg⟩
  · exact hst k e h1
  · rw [ha]
    exact eligible_good (hL o ho)

theorem GoodState_mono {st st' : CacheState}
    (hsub : ∀ k : CacheKey, ∀ e ∈ st' k, e ∈ st k) (hst : GoodState st) :
    GoodState st' :=
  fun k e he => hst k e (hsub k e he)

theorem FlushAutoGenerated_sub (st : CacheState) (k : CacheKey) :
    ∀ e ∈ FlushAutoGenerated st k, e ∈ st k :=
  fun _ he => (List.mem_filter.mp he).1

theorem UpdateRemoved_sub (fam : Family) (t : Topology) (d : Device) (a : Address)
    (st : CacheState) (k : CacheKey) :
    ∀ e ∈ UpdateCacheByAddressRemoved fam t d a st k, e ∈ st k := by
  intro e he
  rw [UpdateCacheByAddressRemoved] at he
  split at he
  · exact (List.mem_filter.mp he).1
  · exact he

theorem GoodLinks_applyOps {t : Topology} {st : CacheState} {L : List Op}
    (hL : ∀ o ∈ L, ∀ d ∈ t.devs, d.devId = o.key.1 → o.link ≠ d.linkAddr)
    (hst : GoodLinks t st) : GoodLinks t (applyOps st L) := by
  intro d hd fam e he
  rcases mem_applyOps L st (d.devId, fam) he with h1 | ⟨o, ho, hk, ha, hl, hg⟩
  · exact hst d hd fam e h1
  · rw [hl]
    exact hL o ho d hd (by rw [hk])

theorem GoodLinks_mono {t : Topology} {st st' : CacheState}
    (hsub : ∀ k : CacheKey, ∀ e ∈ st' k, e ∈ st k) (hst : GoodLinks t st) :
    GoodLinks t st' :=
  fun d hd fam e he => hst d hd fam e (hsub _ e he)

theorem linkSafe_of_parts {t : Topology} (hwf : WFLinks t) {o : Op} {T S : Device}
    (hS : S ∈ t.devs) (hid : S.devId ≠ T.devId) (hkey : o.key.1 = T.devId)
    (hlink : o.link = S.linkAddr) :
    ∀ d ∈ t.devs, d.devId = o.key.1 → o.link ≠ d.linkAddr := by
  intro d hd hdk
  rw [hlink]
  apply hwf S hS d hd
  rw [hdk.trans hkey]
  exact hid

theorem NoSelfEntry_of_GoodLinks {t : Topology} {st : CacheState} (h : GoodLinks t st) :
    NoSelfEntry t st :=
  fun d hd fam e he hc => h d hd fam e he hc.2

theorem GoodState_run (t : Topology) (cmds : List Cmd) :
    ∀ (h : NeighborCacheHelper) (st : CacheState), GoodState st →
      GoodState (run t cmds (h, st)).2 := by
  induction cmds with
  | nil => intro h st hst; exact hst
  | cons cmd cs ih =>
    intro h st hst
    have hstep : GoodState (exec t cmd (h, st)).2 := by
      cases cmd with
      | popGlobal =>
        refine GoodState_applyOps ?_ hst
        intro o ho
        rcases opsGlobal_sound ho with ⟨c, _, hoc⟩
        rcases opsChannel_sound hoc with ⟨T, S, _, _, _, _, _, hel⟩
        exact eligibleAddrs_eligible hel
      | popChannel c =>
        refine GoodState_applyOps ?_ hst
        intro o ho
        rcases opsChannel_sound ho with ⟨T, S, _, _, _, _, _, hel⟩
        exact eligibleAddrs_eligible hel
      | popDevices ds =>
        refine GoodState_applyOps ?_ hst
        intro o ho
        rcases opsDeviceSet_sound ho with ⟨T, S, _, _, _, _, _, hel⟩
        exact eligibleAddrs_eligible hel
      | popIfacesV4 ds =>
        refine GoodState_applyOps ?_ hst
        intro o ho
        rcases opsIfaceSet_sound ho with ⟨T, S, _, _, _, _, _, hel⟩
        exact eligibleAddrs_eligible hel
      | popIfacesV6 ds =>
        refine GoodState_applyOps ?_ hst
        intro o ho
        rcases opsIfaceSet_sound ho with ⟨T, S, _, _, _, _, _, hel⟩
        exact eligibleAddrs_eligible hel
      | flush => exact GoodState_mono (FlushAutoGenerated_sub st) hst
      | setDynamic b => exact hst
      | addrRemoved fam d a =>
        rw [exec_addrRemoved_eq]
        cases hdy : h.m_dynamicNeighborCache
        · simp only [Bool.false_eq_true, if_false]
          exact hst
        · simp only [if_true]
          exact GoodState_mono (UpdateRemoved_sub fam t d a st) hst
      | addrAdded fam d =>
        rw [exec_addrAdded_eq]
        cases hdy : h.m_dynamicNeighborCache
        · simp only [Bool.false_eq_true, if_false]
          exact hst
        · simp only [if_true]
          refine GoodState_applyOps ?_ hst
          intro o ho
          rcases opsAdded_sound ho with ⟨T, S, _, _, _, _, _, hel⟩
          exact eligibleAddrs_eligible hel
    exact ih (exec t cmd (h, st)).1 (exec t cmd (h, st)).2 hstep

theorem GoodLinks_run (t : Topology) (hwf : WFLinks t) (cmds : List Cmd) :
    ∀ (h : NeighborCacheHelper) (st : CacheState), (∀ cmd ∈ cmds, CmdScoped t cmd) →
      GoodLinks t st → GoodLinks t (run t cmds (h, st)).2 := by
  induction cmds with
  | nil => intro h st _ hst; exact hst
  | cons cmd cs ih =>
    intro h st hsc hst
    have hsc0 : CmdScoped t cmd := hsc cmd (List.mem_cons_self _ _)
    have hstep : GoodLinks t (exec t cmd (h, st)).2 := by
      cases cmd with
      | popGlobal =>
        refine GoodLinks_applyOps ?_ hst
        intro o ho
        rcases opsGlobal_sound ho with ⟨c, _, hoc⟩
        rcases opsChannel_sound hoc with ⟨T, S, hT, hS, hid, hk, hl, _⟩
        exact linkSafe_of_parts hwf (devicesOn_mem.mp hS).1 hid hk hl
      | popChannel c =>
        refine GoodLinks_applyOps ?_ hst
        intro o ho
        rcases opsChannel_sound ho with ⟨T, S, hT, hS, hid, hk, hl, _⟩
        exact linkSafe_of_parts hwf (devicesOn_mem.mp hS).1 hid hk hl
      | popDevices ds =>
        refine GoodLinks_applyOps ?_ hst
        intro o ho
        rcases opsDeviceSet_sound ho with ⟨T, S, hT, hS, hid, hk, hl, _⟩
        exact linkSafe_of_parts hwf (hsc0 S hS) hid hk hl
      | popIfacesV4 ds =>
        refine GoodLinks_applyOps ?_ hst
        intro o ho
        rcases opsIfaceSet_sound ho with ⟨T, S, hT, hS, hid, hk, hl, _⟩
        exact linkSafe_of_parts hwf (hsc0 S hS) hid hk hl
      | popIfacesV6 ds =>
        refine GoodLinks_applyOps ?_ hst
        intro o ho
        rcases opsIfaceSet_sound ho with ⟨T, S, hT, hS, hid, hk, hl, _⟩
        exact linkSafe_of_parts hwf (hsc0 S hS) hid hk hl
      | flush => exact GoodLinks_mono (FlushAutoGenerated_sub st) hst
      | setDynamic b => exact hst
      | addrRemoved fam d a =>
        rw [exec_addrRemoved_eq]
        cases hdy : h.m_dynamicNeighborCache
        · simp only [Bool.false_eq_true, if_false]
          exact hst
        · simp only [if_true]
          exact GoodLinks_mono (UpdateRemoved_sub fam t d a st) hst
      | addrAdded fam d =>
        rw [exec_addrAdded_eq]
        cases hdy : h.m_dynamicNeighborCache
        · simp only [Bool.false_eq_true, if_false]
          exact hst
        · simp only [if_true]
          refine GoodLinks_applyOps ?_ hst
          intro o ho
          rcases opsAdded_sound ho with ⟨T, S, hT, hS, hid, hk, hl, _⟩
          have hSd : S ∈ t.devs := by
            rcases List.mem_cons.mp hS with h1 | h1
            · rw [h1]; exact hsc0
            · exact h1
          exact linkSafe_of_parts hwf hSd hid hk hl
    exact ih (exec t cmd (h, st)).1 (exec t cmd (h, st)).2
      (fun c hc => hsc c (List.mem_cons_of_mem _ hc)) hstep

theorem pairsOf_short {l : List Device} (h : l.length < 2) : pairsOf l = [] := by
  cases l with
  | nil => rfl
  | cons d rest =>
    cases rest with
    | nil => rfl
    | cons e rest2 =>
      exact absurd h (by simp only [List.length_cons]; omega)

/-! Claim theorems. -/

/-- C2: FlushAutoGenerated removes, from every cache, exactly the entries
carrying the generated tag: every generated entry is removed, and every entry
whose generated-flag is false is left in place, regardless of address
overlap. -/
theorem C2_flush_exactly_generated (t : Topology) (h : NeighborCacheHelper)
    (st : CacheState) (k : CacheKey) (e : Entry) :
    e ∈ (exec t .flush (h, st)).2 k ↔ (e ∈ st k ∧ e.generated = false) := by
  show e ∈ FlushAutoGenerated st k ↔ _
  simp [FlushAutoGenerated, List.mem_filter]

/-- C3: a population write that finds an existing entry for the same peer
address never downgrades a manually configured entry (generated-flag false is
left untouched, the whole cache is unchanged), while an existing
auto-generated entry is refreshed to the newly written mapping. -/
theorem C3_never_overwrites_manual (c1 : Cache) (x : Address) (l1 : Nat) (e : Entry)
    (c2 : Cache) (y : Address) (l2 : Nat) (f : Entry)
    (hm : lookupA c1 x = some e) (hme : e.generated = false)
    (hg : lookupA c2 y = some f) (hgf : f.generated = true) :
    AddEntry c1 x l1 = c1 ∧
      lookupA (AddEntry c2 y l2) y = some ⟨y, l2, true⟩ :=
  ⟨AddEntry_manual l1 hm hme, lookupA_AddEntry_gen l2 hg hgf⟩

/-- C3 witness: a manual entry survives an attempted write unchanged; a
generated entry is refreshed. -/
theorem C3_never_overwrites_manual_witness :
    AddEntry [Entry.mk wAddr1 5 false] wAddr1 7 = [Entry.mk wAddr1 5 false] ∧
      lookupA (AddEntry [Entry.mk wAddr2 6 true] wAddr2 8) wAddr2 =
        some ⟨wAddr2, 8, true⟩ :=
  C3_never_overwrites_manual [Entry.mk wAddr1 5 false] wAddr1 7 (Entry.mk wAddr1 5 false)
    [Entry.mk wAddr2 6 true] wAddr2 8 (Entry.mk wAddr2 6 true)
    (by decide) (by decide) (by decide) (by decide)

/-- C10: on construction both helper flags are false; the global walker sets
m_globalNeighborCache; the scoped population overloads and the flush leave
the helper flags unchanged; the dynamic switch does not touch
m_globalNeighborCache; address events never change the helper. -/
theorem C10_helper_flags (t : Topology) (h : NeighborCacheHelper) (st : CacheState)
    (c : Nat) (ds es fs : List Device) (b : Bool) (fam : Family) (d : Device)
    (a : Address) :
    NeighborCacheHelper.init.m_globalNeighborCache = false ∧
    NeighborCacheHelper.init.m_dynamicNeighborCache = false ∧
    (exec t .popGlobal (h, st)).1.m_globalNeighborCache = true ∧
    (exec t .popGlobal (h, st)).1.m_dynamicNeighborCache = h.m_dynamicNeighborCache ∧
    (exec t (.popChannel c) (h, st)).1 = h ∧
    (exec t (.popDevices ds) (h, st)).1 = h ∧
    (exec t (.popIfacesV4 es) (h, st)).1 = h ∧
    (exec t (.popIfacesV6 fs) (h, st)).1 = h ∧
    (exec t .flush (h, st)).1 = h ∧
    (exec t (.setDynamic b) (h, st)).1.m_globalNeighborCache = h.m_globalNeighborCache ∧
    (exec t (.addrRemoved fam d a) (h, st)).1 = h ∧
    (exec t (.addrAdded fam d) (h, st)).1 = h := by
  refine ⟨rfl, rfl, rfl, rfl, rfl, rfl, rfl, rfl, rfl, rfl, ?_, ?_⟩
  · rw [exec_addrRemoved_eq]
    cases h.m_dynamicNeighborCache <;> simp
  · rw [exec_addrAdded_eq]
    cases h.m_dynamicNeighborCache <;> simp

/-- C8: disabling dynamic mode performs no implicit flush (cache state is
unchanged by the switch), address-change events delivered while Disabled
cause no cache mutation, and the disable/event/re-enable sequence leaves the
caches exactly as before. -/
theorem C8_events_gated_by_dynamic_mode (t : Topology) (h : NeighborCacheHelper)
    (st : CacheState) (b : Bool) (fam : Family) (d : Device) (a : Address)
    (hdis : h.m_dynamicNeighborCache = false) :
    (exec t (.setDynamic b) (h, st)).2 = st ∧
    (exec t (.addrRemoved fam d a) (h, st)).2 = st ∧
    (exec t (.addrAdded fam d) (h, st)).2 = st ∧
    (run t [.setDynamic false, .addrRemoved fam d a, .setDynamic true] (h, st)).2
      = st := by
  refine ⟨rfl, ?_, ?_, ?_⟩
  · rw [exec_addrRemoved_eq, hdis]
    simp
  · rw [exec_addrAdded_eq, hdis]
    simp
  · show (exec t (.setDynamic true)
      (exec t (.addrRemoved fam d a) (exec t (.setDynamic false) (h, st)))).2 = st
    simp [exec_setDynamic_eq, exec_addrRemoved_eq, SetDynamicNeighborCache]

/-- C8 witness at a concrete helper, topology and state. -/
theorem C8_events_gated_by_dynamic_mode_witness :
    (exec wTop (.setDynamic true) (NeighborCacheHelper.init, emptyState)).2
        = emptyState ∧
    (exec wTop (.addrRemoved .v4 wDevA wAddr1)
        (NeighborCacheHelper.init, emptyState)).2 = emptyState ∧
    (exec wTop (.addrAdded .v4 wDevA) (NeighborCacheHelper.init, emptyState)).2
        = emptyState ∧
    (run wTop [.setDynamic false, .addrRemoved .v4 wDevA wAddr1, .setDynamic true]
        (NeighborCacheHelper.init, emptyState)).2 = emptyState :=
  C8_events_gated_by_dynamic_mode wTop NeighborCacheHelper.init emptyState true
    .v4 wDevA wAddr1 (by decide)

/-- C9: population entry points on degenerate inputs are no-ops, never
failures: a channel with fewer than two devices, a channel whose devices all
lack protocol interfaces, a device set whose members share no channel, and
empty containers all install nothing. -/
theorem C9_degenerate_inputs_noop
    (t : Topology) (c : Nat) (st : CacheState)
    (hlen : (devicesOn t c).length < 2)
    (t' : Topology) (c' : Nat) (st' : CacheState)
    (hno : ∀ d ∈ devicesOn t' c', famAddrs .v4 d = none ∧ famAddrs .v6 d = none)
    (ds : List Device) (st2 : CacheState)
    (hch : ∀ p ∈ pairsOf ds, p.1.chan ≠ p.2.chan)
    (st3 st4 st5 : CacheState) :
    PopulateNeighborCacheChannel t c st = st ∧
    PopulateNeighborCacheChannel t' c' st' = st' ∧
    PopulateNeighborCacheDevices ds st2 = st2 ∧
    PopulateNeighborCacheDevices [] st3 = st3 ∧
    PopulateNeighborCacheIpv4 [] st4 = st4 ∧
    PopulateNeighborCacheIpv6 [] st5 = st5 := by
  refine ⟨?_, ?_, ?_, rfl, rfl, rfl⟩
  · have hp : pairsOf (devicesOn t c) = [] := pairsOf_short hlen
    show applyOps st (opsChannel t c) = st
    rw [opsChannel, opsChannelFam, opsChannelFam, hp]
    rfl
  · have hops : ∀ fam, opsChannelFam fam t' c' = [] := by
      intro fam
      rw [opsChannelFam]
      apply List.flatMap_eq_nil_iff.mpr
      intro p hp
      rcases pairsOf_mem_sub hp with ⟨h1, _⟩
      rw [opsPair]
      by_cases hid : p.1.devId = p.2.devId
      · rw [if_pos hid]
      · rw [if_neg hid, if_neg ?_]
        cases fam
        · have h0 := (hno p.1 h1).1
          simp only [famAddrs] at h0
          simp [famAddrs, h0]
        · have h0 := (hno p.1 h1).2
          simp only [famAddrs] at h0
          simp [famAddrs, h0]
    show applyOps st' (opsChannel t' c') = st'
    rw [opsChannel, hops .v4, hops .v6]
    rfl
  · have hsame : sameChanPairs ds = [] := by
      rw [sameChanPairs]
      apply List.filter_eq_nil_iff.mpr
      intro p hp
      simp [hch p hp]
    show applyOps st2 (opsDeviceSet ds) = st2
    rw [opsDeviceSet, hsame]
    rfl

/-- C9 witness: a one-device channel, an interface-less channel, and a
device set spanning two disjoint channels. -/
theorem C9_degenerate_inputs_noop_witness :
    PopulateNeighborCacheChannel wTop 5 emptyState = emptyState ∧
    PopulateNeighborCacheChannel (Topology.mk [0] [Device.mk 0 10 0 none none,
      Device.mk 1 11 0 none none]) 0 emptyState = emptyState ∧
    PopulateNeighborCacheDevices [Device.mk 0 10 0 (some [wAddr1]) none,
      Device.mk 1 11 1 (some [wAddr2]) none] emptyState = emptyState ∧
    PopulateNeighborCacheDevices [] emptyState = emptyState ∧
    PopulateNeighborCacheIpv4 [] emptyState = emptyState ∧
    PopulateNeighborCacheIpv6 [] emptyState = emptyState :=
  C9_degenerate_inputs_noop wTop 5 emptyState (by decide)
    (Topology.mk [0] [Device.mk 0 10 0 none none, Device.mk 1 11 0 none none]) 0
    emptyState (by decide)
    [Device.mk 0 10 0 (some [wAddr1]) none, Device.mk 1 11 1 (some [wAddr2]) none]
    emptyState (by decide) emptyState emptyState emptyState

/-- C4: every population entry point is idempotent: running it twice on an
unchanged topology yields exactly the state (helper flags and all caches)
produced by running it once. -/
theorem C4_population_idempotent (t : Topology) (cmd : Cmd) (h : NeighborCacheHelper)
    (st : CacheState) (hpop : IsPopulate cmd) :
    exec t cmd (exec t cmd (h, st)) = exec t cmd (h, st) := by
  cases cmd with
  | popGlobal =>
    show (_, applyOps (applyOps st (opsGlobal t)) (opsGlobal t))
        = (_, applyOps st (opsGlobal t))
    rw [applyOps_idem]
  | popChannel c =>
    show (h, applyOps (applyOps st (opsChannel t c)) (opsChannel t c))
        = (h, applyOps st (opsChannel t c))
    rw [applyOps_idem]
  | popDevices ds =>
    show (h, applyOps (applyOps st (opsDeviceSet ds)) (opsDeviceSet ds))
        = (h, applyOps st (opsDeviceSet ds))
    rw [applyOps_idem]
  | popIfacesV4 ds =>
    show (h, applyOps (applyOps st (opsIfaceSet .v4 ds)) (opsIfaceSet .v4 ds))
        = (h, applyOps st (opsIfaceSet .v4 ds))
    rw [applyOps_idem]
  | popIfacesV6 ds =>
    show (h, applyOps (applyOps st (opsIfaceSet .v6 ds)) (opsIfaceSet .v6 ds))
        = (h, applyOps st (opsIfaceSet .v6 ds))
    rw [applyOps_idem]
  | flush => exact hpop.elim
  | setDynamic b => exact hpop.elim
  | addrRemoved fam d a => exact hpop.elim
  | addrAdded fam d => exact hpop.elim

/-- C4 witness: the by-channel walker applied twice on the concrete topology
equals one application. -/
theorem C4_population_idempotent_witness :
    exec wTop (.popChannel 0)
        (exec wTop (.popChannel 0) (NeighborCacheHelper.init, emptyState))
      = exec wTop (.popChannel 0) (NeighborCacheHelper.init, emptyState) :=
  C4_population_idempotent wTop (.popChannel 0) NeighborCacheHelper.init emptyState
    trivial

/-- C5: no population or dynamic-maintenance operation ever installs a cache
entry whose peer address is loopback, unspecified or multicast/broadcast:
starting from a state free of such entries, after any sequence of operations
no cache contains one. -/
theorem C5_excluded_addresses_never_cached (t : Topology) (cmds : List Cmd)
    (h : NeighborCacheHelper) (st : CacheState) (hst : GoodState st) :
    GoodState (run t cmds (h, st)).2 :=
  GoodState_run t cmds h st hst

/-- C5 witness: a run mixing every kind of operation on the concrete topology
leaves no excluded address cached. -/
theorem C5_excluded_addresses_never_cached_witness :
    GoodState (run wTop [.popGlobal, .setDynamic true, .addrAdded .v4 wDevA,
      .addrRemoved .v4 wDevA wAddr1, .flush]
      (NeighborCacheHelper.init, emptyState)).2 :=
  C5_excluded_addresses_never_cached wTop
    [.popGlobal, .setDynamic true, .addrAdded .v4 wDevA,
      .addrRemoved .v4 wDevA wAddr1, .flush]
    NeighborCacheHelper.init emptyState
    (fun _ e he => absurd he (List.not_mem_nil e))

/-- C6: no interface's cache ever contains an entry mapping one of its own
configured addresses to its own device's link address, across any sequence of
population and dynamic-maintenance operations, on a topology whose devices
carry distinct link addresses. -/
theorem C6_no_self_entries (t : Topology) (cmds : List Cmd) (h : NeighborCacheHelper)
    (st : CacheState) (hwf : WFLinks t) (hsc : ∀ cmd ∈ cmds, CmdScoped t cmd)
    (hst : GoodLinks t st) : NoSelfEntry t (run t cmds (h, st)).2 :=
  NoSelfEntry_of_GoodLinks (GoodLinks_run t hwf cmds h st hsc hst)

/-- C6 witness: population runs on the concrete topology produce no
self-entries. -/
theorem C6_no_self_entries_witness :
    NoSelfEntry wTop (run wTop [.popGlobal, .popChannel 0]
      (NeighborCacheHelper.init, emptyState)).2 :=
  C6_no_self_entries wTop [.popGlobal, .popChannel 0] NeighborCacheHelper.init
    emptyState (by unfold WFLinks; decide)
    (by
      intro cmd hc
      rcases List.mem_cons.mp hc with h1 | h1
      · rw [h1]; trivial
      · rcases List.mem_cons.mp h1 with h2 | h2
        · rw [h2]; trivial
        · simp at h2)
    (fun _ _ _ e he => absurd he (List.not_mem_nil e))

/-- C7: with dynamic maintenance enabled, an address-removed event for device
d removes from the same-family peer caches on d's channel exactly the
generated entries for the removed address; every other cache, including d's
own and those of devices not sharing d's channel, is unchanged; an
address-added event touches only the same-family caches of d and of its
channel peers. -/
theorem C7_event_scoping (t : Topology) (fam : Family) (d : Device) (a : Address)
    (h : NeighborCacheHelper) (st : CacheState)
    (hdy : h.m_dynamicNeighborCache = true) :
    RemovalExact fam t d a st (exec t (.addrRemoved fam d a) (h, st)).2 ∧
    FrameOutsidePeers fam t d st (exec t (.addrRemoved fam d a) (h, st)).2 ∧
    (exec t (.addrRemoved fam d a) (h, st)).2 (d.devId, fam) = st (d.devId, fam) ∧
    FrameAdded fam t d st (exec t (.addrAdded fam d) (h, st)).2 := by
  have hrm : (exec t (.addrRemoved fam d a) (h, st)).2
      = UpdateCacheByAddressRemoved fam t d a st := by
    rw [exec_addrRemoved_eq, hdy]
    simp
  have had : (exec t (.addrAdded fam d) (h, st)).2
      = UpdateCacheByAddressAdded fam t d st := by
    rw [exec_addrAdded_eq, hdy]
    simp
  rw [hrm, had]
  refine ⟨?_, ?_, ?_, ?_⟩
  · intro p hp hps e
    simp only [UpdateCacheByAddressRemoved]
    split
    · simp only [List.mem_filter]
      constructor
      · rintro ⟨h1, h2⟩
        refine ⟨h1, ?_⟩
        rintro ⟨haa, hgg⟩
        rw [haa, hgg] at h2
        simp at h2
      · rintro ⟨h1, h2⟩
        refine ⟨h1, ?_⟩
        by_cases haa : e.addr = a
        · have hg0 : e.generated = false := by
            cases hgen : e.generated
            · rfl
            · exact absurd ⟨haa, hgen⟩ h2
          simp [haa, hg0]
        · simp [haa]
    · rename_i hcond
      exact absurd ⟨trivial, p, hp, rfl, hps⟩ hcond
  · intro k hk
    simp only [UpdateCacheByAddressRemoved]
    rw [if_neg ?_]
    rintro ⟨hk2, p, hp, hpd, hps⟩
    rcases hk with hk | hk
    · exact hk hk2
    · exact hk p hp hpd
  · simp only [UpdateCacheByAddressRemoved]
    rw [if_neg ?_]
    rintro ⟨hk2, p, hp, hpd, hps⟩
    exact (peersOf_mem.mp hp).2.2 hpd
  · intro k hk
    show applyOps st (opsAdded fam t d) k = st k
    apply applyOps_frame
    intro o ho hok
    rcases opsAdded_key ho with ⟨hkf, hd1 | ⟨p, hp, hd2⟩⟩
    · rcases hk with hk | hk
      · exact hk (hok ▸ hkf)
      · exact hk.1 (hok ▸ hd1)
    · rcases hk with hk | hk
      · exact hk (hok ▸ hkf)
      · exact hk.2 p hp (hok ▸ hd2).symm

/-- C7 witness at the concrete topology with dynamic mode enabled. -/
theorem C7_event_scoping_witness :
    RemovalExact .v4 wTop wDevA wAddr1 emptyState
        (exec wTop (.addrRemoved .v4 wDevA wAddr1)
          (NeighborCacheHelper.mk false true, emptyState)).2 ∧
    FrameOutsidePeers .v4 wTop wDevA emptyState
        (exec wTop (.addrRemoved .v4 wDevA wAddr1)
          (NeighborCacheHelper.mk false true, emptyState)).2 ∧
    (exec wTop (.addrRemoved .v4 wDevA wAddr1)
        (NeighborCacheHelper.mk false true, emptyState)).2 (wDevA.devId, .v4)
      = emptyState (wDevA.devId, .v4) ∧
    FrameAdded .v4 wTop wDevA emptyState
        (exec wTop (.addrAdded .v4 wDevA)
          (NeighborCacheHelper.mk false true, emptyState)).2 :=
  C7_event_scoping wTop .v4 wDevA wAddr1 (NeighborCacheHelper.mk false true)
    emptyState rfl

/-- C1: for two devices A and B sharing a channel, both with interfaces of the
same family, population by that channel and global population each write, for
every eligible configured address of B not already cached on A's side, an
entry in A's cache mapping it to B's link address with generated-flag true,
and the mirror entry in B's cache for every eligible address of A. -/
theorem C1_symmetric_entries
    (t : Topology) (c : Nat) (st : CacheState) (fam : Family) (A B : Device)
    (a a' : Address)
    (hA : A ∈ devicesOn t c) (hB : B ∈ devicesOn t c)
    (hid : A.devId ≠ B.devId)
    (hfa : (famAddrs fam A).isSome = true) (hfb : (famAddrs fam B).isSome = true)
    (ha : a ∈ eligibleAddrs fam B) (ha' : a' ∈ eligibleAddrs fam A)
    (hcA : lookupA (st (A.devId, fam)) a = none)
    (hcB : lookupA (st (B.devId, fam)) a' = none)
    (huB : ∀ D ∈ t.devs, a ∈ eligibleAddrs fam D → D.linkAddr = B.linkAddr)
    (huA : ∀ D ∈ t.devs, a' ∈ eligibleAddrs fam D → D.linkAddr = A.linkAddr)
    (hc : c ∈ t.chans) :
    (Entry.mk a B.linkAddr true ∈ PopulateNeighborCacheChannel t c st (A.devId, fam) ∧
     Entry.mk a' A.linkAddr true ∈ PopulateNeighborCacheChannel t c st (B.devId, fam)) ∧
    (Entry.mk a B.linkAddr true ∈
        PopulateNeighborCacheGlobalState t st (A.devId, fam) ∧
     Entry.mk a' A.linkAddr true ∈
        PopulateNeighborCacheGlobalState t st (B.devId, fam)) := by
  have hex1 : Op.mk (A.devId, fam) a B.linkAddr ∈ opsChannel t c :=
    mem_opsChannel_of_fam (mem_opsChannelFam hA hB hid hfa hfb ha)
  have hex2 : Op.mk (B.devId, fam) a' A.linkAddr ∈ opsChannel t c :=
    mem_opsChannel_of_fam
      (mem_opsChannelFam hB hA (fun hh => hid hh.symm) hfb hfa ha')
  have hallC1 : ∀ o ∈ opsChannel t c, o.key = (A.devId, fam) → o.addr = a →
      o.link = B.linkAddr := by
    intro o ho hk hoa
    rcases opsChannel_sound ho with ⟨T, S, hT, hS, hid2, hk1, hlink, hel⟩
    rw [hlink]
    apply huB S (devicesOn_mem.mp hS).1
    have hkf : o.key.2 = fam := by rw [hk]
    rw [← hoa, ← hkf]
    exact hel
  have hallC2 : ∀ o ∈ opsChannel t c, o.key = (B.devId, fam) → o.addr = a' →
      o.link = A.linkAddr := by
    intro o ho hk hoa
    rcases opsChannel_sound ho with ⟨T, S, hT, hS, hid2, hk1, hlink, hel⟩
    rw [hlink]
    apply huA S (devicesOn_mem.mp hS).1
    have hkf : o.key.2 = fam := by rw [hk]
    rw [← hoa, ← hkf]
    exact hel
  have hallG1 : ∀ o ∈ opsGlobal t, o.key = (A.devId, fam) → o.addr = a →
      o.link = B.linkAddr := by
    intro o ho hk hoa
    rcases opsGlobal_sound ho with ⟨c2, _, hoc⟩
    rcases opsChannel_sound hoc with ⟨T, S, hT, hS, hid2, hk1, hlink, hel⟩
    rw [hlink]
    apply huB S (devicesOn_mem.mp hS).1
    have hkf : o.key.2 = fam := by rw [hk]
    rw [← hoa, ← hkf]
    exact hel
  have hallG2 : ∀ o ∈ opsGlobal t, o.key = (B.devId, fam) → o.addr = a' →
      o.link = A.linkAddr := by
    intro o ho hk hoa
    rcases opsGlobal_sound ho with ⟨c2, _, hoc⟩
    rcases opsChannel_sound hoc with ⟨T, S, hT, hS, hid2, hk1, hlink, hel⟩
    rw [hlink]
    apply huA S (devicesOn_mem.mp hS).1
    have hkf : o.key.2 = fam := by rw [hk]
    rw [← hoa, ← hkf]
    exact hel
  exact ⟨⟨mem_applyOps_write hex1 hallC1 hcA, mem_applyOps_write hex2 hallC2 hcB⟩,
    ⟨mem_applyOps_write (mem_opsGlobal_of_channel hc hex1) hallG1 hcA,
     mem_applyOps_write (mem_opsGlobal_of_channel hc hex2) hallG2 hcB⟩⟩

/-- C1 witness: on the concrete two-device channel, both directions appear
after by-channel population and after global population. -/
theorem C1_symmetric_entries_witness :
    (Entry.mk wAddr2 wDevB.linkAddr true ∈
        PopulateNeighborCacheChannel wTop 0 emptyState (wDevA.devId, .v4) ∧
     Entry.mk wAddr1 wDevA.linkAddr true ∈
        PopulateNeighborCacheChannel wTop 0 emptyState (wDevB.devId, .v4)) ∧
    (Entry.mk wAddr2 wDevB.linkAddr true ∈
        PopulateNeighborCacheGlobalState wTop emptyState (wDevA.devId, .v4) ∧
     Entry.mk wAddr1 wDevA.linkAddr true ∈
        PopulateNeighborCacheGlobalState wTop emptyState (wDevB.devId, .v4)) :=
  C1_symmetric_entries wTop 0 emptyState .v4 wDevA wDevB wAddr2 wAddr1
    (by decide) (by decide) (by decide) (by decide) (by decide) (by decide)
    (by decide) (by decide) (by decide) (by decide) (by decide) (by decide)

end NS3
